import Mathlib

/-!
Verification development for the playback-queue and audio-engine core of the
asteroid-player repository.  The definitions below are shallow embeddings of
the TypeScript source: the zustand player store (queue operations), the
AudioEngine singleton, the AudioController load effect, and the startup
session-restore logic.  JavaScript numbers used as times are modelled as
integers (all the conditions the code applies to
them are order comparisons against integer constants, so the integral
model is faithful to the JS number order logic); array indices stored in `currentIndex` are modelled as integers
because the store never range-checks them.
-/

namespace AsteroidPlayer

/-- A track as far as the queue logic observes it: a stable string id
(modelled as a Nat), display title, and duration in seconds.  The source
stores duration as a JS number where `0`/`undefined` are falsy; we model the
absent/unknown duration as `0`, matching the code's truthiness tests. -/
structure Song where
  id : Nat
  title : String
  duration : Int
deriving DecidableEq

/-- The slice of the zustand player store that the queue claims are about:
`queue` is the active ordering, `originalQueue` the canonical ordering,
`currentIndex` a nullable JS number (null = `none`), plus the shuffle flag,
the playing flag and the queue title. -/
structure PlayerState where
  queue : List Song
  originalQueue : List Song
  currentIndex : Option Int
  isShuffled : Bool
  isPlaying : Bool
  queueTitle : String
deriving DecidableEq

/-- Store state at creation (`usePlayerStore` initial fields). -/
def initialState : PlayerState :=
  { queue := [], originalQueue := [], currentIndex := none,
    isShuffled := false, isPlaying := false, queueTitle := "Queue" }

/-- JS array read `l[i]` for a possibly negative index: negative or
out-of-range reads yield `undefined`, modelled as `none`. -/
def jsIndex (l : List α) (i : Int) : Option α :=
  if i < 0 then none else l[i.toNat]?

/-- JS `Array.prototype.findIndex`: index of the first match, `-1` if none. -/
def jsFindIndex (l : List α) (p : α → Bool) : Int :=
  match l.findIdx? p with
  | some k => (k : Int)
  | none => -1

/-- Start position used by JS `splice(start, ...)`: negative values count
from the end (floored at 0), positive values are clamped to the length. -/
def jsSpliceStart (len : Nat) (i : Int) : Nat :=
  (if i < 0 then max ((len : Int) + i) 0 else min i (len : Int)).toNat

/-- JS `l.splice(i, 0, ...xs)`: insert `xs` at the (clamped) position `i`. -/
def spliceInsert (l : List α) (i : Int) (xs : List α) : List α :=
  let k := jsSpliceStart l.length i
  l.take k ++ xs ++ l.drop k

/-- `setQueue(songs, title)`: replaces both orderings, resets the shuffle
flag, leaves `currentIndex` untouched (the source patch omits it). -/
def setQueue (songs : List Song) (title : String) (st : PlayerState) : PlayerState :=
  { st with queue := songs, originalQueue := songs, queueTitle := title,
            isShuffled := false }

/-- `setOriginalQueue(songs)`. -/
def setOriginalQueue (songs : List Song) (st : PlayerState) : PlayerState :=
  { st with originalQueue := songs }

/-- `setCurrentIndex(index)`: stores the given value verbatim; the source
performs no range check of any kind. -/
def setCurrentIndex (index : Option Int) (st : PlayerState) : PlayerState :=
  { st with currentIndex := index }

/-- `reorderQueue(startIndex, endIndex)`.  The drag indices supplied by the
UI are nonnegative array positions, so they are taken as `Nat`.  When
`startIndex` is out of range the JS `splice` would remove nothing and insert
`undefined` into the array, a value outside this typed model; that branch is
embedded as the unchanged state and every theorem about reorder carries an
in-range hypothesis.  Insertion at an out-of-range `endIndex` is clamped to
the end exactly as JS `splice` clamps it, while the recomputed index is the
unclamped `endIndex`, as in the source. -/
def reorderQueue (startIndex endIndex : Nat) (st : PlayerState) : PlayerState :=
  match st.queue[startIndex]? with
  | none => st
  | some removed =>
    let r1 := st.queue.take startIndex ++ st.queue.drop (startIndex + 1)
    let result := r1.take endIndex ++ removed :: r1.drop endIndex
    let newIndex : Option Int :=
      match st.currentIndex with
      | none => none
      | some c =>
        if c = (startIndex : Int) then some (endIndex : Int)
        else if (startIndex : Int) < c ∧ (endIndex : Int) ≥ c then some (c - 1)
        else if (startIndex : Int) > c ∧ (endIndex : Int) ≤ c then some (c + 1)
        else some c
    { st with queue := result, currentIndex := newIndex,
              originalQueue := if st.isShuffled then st.originalQueue else result }

/-- `addToQueue(song)`: append to both orderings. -/
def addToQueue (song : Song) (st : PlayerState) : PlayerState :=
  { st with queue := st.queue ++ [song],
            originalQueue := st.originalQueue ++ [song] }

/-- `playNext(song)`: with no current track, both orderings become the
singleton and the index becomes 0; otherwise the song is spliced right after
the current position in `queue` and after the current track's position in
`originalQueue` (appended when that track is not found there).  A non-null
`currentIndex` pointing outside the queue would make the JS code dereference
`undefined`; that unreachable branch is embedded as the unchanged state. -/
def playNext (song : Song) (st : PlayerState) : PlayerState :=
  match st.currentIndex with
  | none => { st with queue := [song], originalQueue := [song], currentIndex := some 0 }
  | some c =>
    match jsIndex st.queue c with
    | none => st
    | some currentSong =>
      let newQueue := spliceInsert st.queue (c + 1) [song]
      let oi := jsFindIndex st.originalQueue (fun s => s.id == currentSong.id)
      let newOriginal :=
        if oi ≠ -1 then spliceInsert st.originalQueue (oi + 1) [song]
        else st.originalQueue ++ [song]
      { st with queue := newQueue, originalQueue := newOriginal }

/-- `bulkAddToQueue(songs, mode)`; `next = true` models mode NEXT. -/
def bulkAddToQueue (songs : List Song) (next : Bool) (st : PlayerState) : PlayerState :=
  if next then
    match st.currentIndex with
    | none => { st with queue := songs, originalQueue := songs, currentIndex := some 0 }
    | some c =>
      match jsIndex st.queue c with
      | none => st
      | some currentSong =>
        let newQueue := spliceInsert st.queue (c + 1) songs
        let oi := jsFindIndex st.originalQueue (fun s => s.id == currentSong.id)
        let newOriginal :=
          if oi ≠ -1 then spliceInsert st.originalQueue (oi + 1) songs
          else st.originalQueue ++ songs
        { st with queue := newQueue, originalQueue := newOriginal }
  else
    { st with queue := st.queue ++ songs, originalQueue := st.originalQueue ++ songs }

/-- `deleteSongFromQueue(songId)`: filters both orderings; if the current
track is the deleted one the index becomes null and playback stops,
otherwise the index is relocated with `findIndex` (which yields `-1` when
the id is absent, stored verbatim as in JS). -/
def deleteSongFromQueue (songId : Nat) (st : PlayerState) : PlayerState :=
  let newQueue := st.queue.filter (fun s => s.id ≠ songId)
  let newOriginal := st.originalQueue.filter (fun s => s.id ≠ songId)
  match st.currentIndex with
  | none =>
    { st with queue := newQueue, originalQueue := newOriginal,
              currentIndex := none, isPlaying := false }
  | some c =>
    match jsIndex st.queue c with
    | none => st
    | some cur =>
      if cur.id = songId then
        { st with queue := newQueue, originalQueue := newOriginal,
                  currentIndex := none, isPlaying := false }
      else
        { st with queue := newQueue, originalQueue := newOriginal,
                  currentIndex := some (jsFindIndex newQueue (fun s => s.id == cur.id)) }

/-- `updateSongInQueue(originalId, newSong)`: in-place map over both
orderings. -/
def updateSongInQueue (originalId : Nat) (newSong : Song) (st : PlayerState) : PlayerState :=
  let updateList := fun (l : List Song) =>
    l.map (fun s => if s.id = originalId then newSong else s)
  { st with queue := updateList st.queue, originalQueue := updateList st.originalQueue }

/-- Swap of two list positions, the body of one Fisher-Yates step
(`[remaining[i], remaining[j]] = [remaining[j], remaining[i]]`); the shuffle
loop only ever calls it with both positions in range. -/
def listSwap (l : List α) (i j : Nat) : List α :=
  match l[i]?, l[j]? with
  | some a, some b => (l.set i b).set j a
  | _, _ => l

/-- The Fisher-Yates loop of `toggleShuffle`, counting `i` down to 1; the
random draw `Math.floor(Math.random() * (i + 1))` is abstracted by an
arbitrary oracle `rand`, reduced into range `[0, i]` by `% (i + 1)`. -/
def fyAux (rand : Nat → Nat) : Nat → List α → List α
  | 0, l => l
  | i + 1, l => fyAux rand i (listSwap l (i + 1) (rand (i + 1) % (i + 2)))

/-- In-place uniform shuffle over the whole list as in the source loop
`for (let i = remaining.length - 1; i > 0; i--)`. -/
def fisherYates (rand : Nat → Nat) (l : List α) : List α :=
  fyAux rand (l.length - 1) l

/-- `toggleShuffle()`.  Guarded no-op when there is no current index or the
queue is empty.  Turning OFF restores the canonical ordering and relocates
the index (0 when the current id is not found).  Turning ON keeps the
current track first and shuffles the remaining tracks.  A non-null index
outside the queue would crash the JS callback on `undefined`; that branch is
embedded as the unchanged state. -/
def toggleShuffle (rand : Nat → Nat) (st : PlayerState) : PlayerState :=
  match st.currentIndex with
  | none => st
  | some c =>
    if st.queue.length = 0 then st
    else
      match jsIndex st.queue c with
      | none => st
      | some currentSong =>
        if st.isShuffled then
          let oi := jsFindIndex st.originalQueue (fun s => s.id == currentSong.id)
          { st with isShuffled := false, queue := st.originalQueue,
                    currentIndex := some (if oi ≠ -1 then oi else 0) }
        else
          let remaining := st.queue.filter (fun s => s.id ≠ currentSong.id)
          { st with isShuffled := true,
                    queue := currentSong :: fisherYates rand remaining,
                    currentIndex := some 0 }

/-- The queue operations of spec section 4.1, as one action type.  The
shuffle case carries the randomness oracle. -/
inductive QueueOp where
  | replace (tracks : List Song) (title : String)
  | insertEnd (song : Song)
  | insertNext (song : Song)
  | bulkInsert (songs : List Song) (next : Bool)
  | remove (songId : Nat)
  | reorder (startIndex endIndex : Nat)
  | shuffleToggle (rand : Nat → Nat)
  | update (originalId : Nat) (newSong : Song)

/-- Dispatch one queue operation to its store action. -/
def applyOp : QueueOp → PlayerState → PlayerState
  | .replace tracks title, st => setQueue tracks title st
  | .insertEnd song, st => addToQueue song st
  | .insertNext song, st => playNext song st
  | .bulkInsert songs next, st => bulkAddToQueue songs next st
  | .remove songId, st => deleteSongFromQueue songId st
  | .reorder s e, st => reorderQueue s e st
  | .shuffleToggle rand, st => toggleShuffle rand st
  | .update originalId newSong, st => updateSongInQueue originalId newSong st

/-- Arguments representable in this typed model: reorder must name two
positions of the active queue (out-of-range drags would put `undefined`
into a JS array). -/
def argsOk : QueueOp → PlayerState → Prop
  | .reorder s e, st => s < st.queue.length ∧ e < st.queue.length
  | _, _ => True

/-- Operations admitted by the claim about index bounds: reorder, inserts,
remove and shuffle toggle (not replace, not in-place update). -/
def isC3Op : QueueOp → Prop
  | .replace _ _ => False
  | .update _ _ => False
  | _ => True

/-- Extra guard needed by the amended bounds claim: bulk inserts carry a
nonempty list. -/
def okOp : QueueOp → PlayerState → Prop
  | .bulkInsert songs _, _ => songs ≠ []
  | op, st => argsOk op st

/-- The track ids of an ordering. -/
def queueIds (l : List Song) : List Nat := l.map Song.id

/-- Set equality of active and canonical track ids (the spec 8 invariant). -/
def sameIds (st : PlayerState) : Prop :=
  (queueIds st.queue).toFinset = (queueIds st.originalQueue).toFinset

instance (st : PlayerState) : Decidable (sameIds st) := by
  unfold sameIds; infer_instance

/-- The spec 8 bound: a non-null current index addresses the active queue. -/
def indexInBounds (st : PlayerState) : Prop :=
  match st.currentIndex with
  | none => True
  | some c => 0 ≤ c ∧ c < (st.queue.length : Int)

instance (st : PlayerState) : Decidable (indexInBounds st) := by
  unfold indexInBounds
  match st.currentIndex with
  | none => exact inferInstanceAs (Decidable True)
  | some c => exact inferInstanceAs (Decidable (0 ≤ c ∧ c < (st.queue.length : Int)))

/-- Conjunction of both store invariants. -/
def queueInv (st : PlayerState) : Prop := indexInBounds st ∧ sameIds st

instance (st : PlayerState) : Decidable (queueInv st) := by
  unfold queueInv; infer_instance

/-- States reachable from the fresh store through section 4.1 operations
invoked with representable arguments. -/
inductive Reachable : PlayerState → Prop where
  | init : Reachable initialState
  | step {st : PlayerState} (op : QueueOp) :
      Reachable st → argsOk op st → Reachable (applyOp op st)

/-! ### AudioEngine (audioBase.ts) -/

/-- The transport state of the single HTMLAudioElement owned by AudioEngine.
`duration` is `none` while the media duration is still NaN (unknown). -/
structure AudioPlayer where
  currentTime : Int
  duration : Option Int
deriving DecidableEq

/-- JS truthiness of `this.player.duration`: NaN (unknown) and 0 are falsy. -/
def durationTruthy : Option Int → Bool
  | none => false
  | some d => d ≠ 0

/-- `AudioEngine.seek(time)`: under the `Number.isFinite(time)` guard
(always satisfied for a rational input; non-finite inputs are not
representable here and are no-ops in the source), assigns
`min(time, this.player.duration || time)` to `currentTime`. -/
def AudioEngine.seek (time : Int) (p : AudioPlayer) : AudioPlayer :=
  let safeTime := if durationTruthy p.duration then min time (p.duration.getD 0) else time
  { p with currentTime := safeTime }

/-! ### Source resolution (metadataService.getSongFile / AudioController.getSourceUrl) -/

/-- Where a song's bytes come from, as `getSongFile` inspects a Song:
a native path usable directly, an in-memory File, a file-system handle whose
permission grant may have lapsed, or nothing. -/
inductive FileSource where
  | pathSource (p : Nat)
  | memFile (f : Nat)
  | handle (f : Nat) (granted : Bool)
  | nothing
deriving DecidableEq

/-- `getSongFile(song)`: returns a path string (`Sum.inl`) or a File
(`Sum.inr`), `none` when the song has no source, and throws
"Permission denied" when the handle's permission query and request both
fail.  The Electron fast path returning `song.path` is the `pathSource`
case. -/
def getSongFile : FileSource → Except String (Option (Nat ⊕ Nat))
  | .pathSource p => .ok (some (.inl p))
  | .memFile f => .ok (some (.inr f))
  | .handle f granted =>
      if granted then .ok (some (.inr f)) else .error "Permission denied"
  | .nothing => .ok none

/-- What one resolution hands back to `loadSong`: the url assigned to the
player, the raw source used for the metadata-update comparison, and whether
the url is a blob object-url.  `URL.createObjectURL` is modelled as the
identity on the file id. -/
structure LoadResult where
  src : Nat
  raw : Nat
  isBlob : Bool
deriving DecidableEq

/-- `AudioController.getSourceUrl(song)`: wraps `getSongFile`, catching any
thrown error (including the permission error) and converting it to
`{ src: null, rawSource: null }`, modelled as `none`. -/
def getSourceUrl (s : FileSource) : Option LoadResult :=
  match getSongFile s with
  | .error _ => none
  | .ok none => none
  | .ok (some (.inl p)) => some { src := p, raw := p, isBlob := false }
  | .ok (some (.inr f)) => some { src := f, raw := f, isBlob := true }

/-! ### AudioController load effect -/

/-- The controller-visible state mutated by `loadSong`: the request token
ref, the player element's source and position, the refs used for blob
cleanup and metadata-update detection, the playing flag, the persisted
per-song progress map, and the store's `permissionErrorSong` (which the
controller reads a setter for but never assigns).  `appliedTokens` is proof
instrumentation only: it logs the token of every request whose result is
assigned to `audioEngine.player.src`. -/
structure ControllerState where
  playRequest : Nat
  playerSrc : Option Nat
  playerTime : Int
  lastPlayedSource : Option Nat
  activeObjectUrl : Option Nat
  isPlaying : Bool
  songProgress : List (Nat × Int)
  permissionErrorSong : Option Nat
  appliedTokens : List Nat
deriving DecidableEq

/-- Read of `songProgress[id]`. -/
def lookupProgress (m : List (Nat × Int)) (id : Nat) : Option Int :=
  m.lookup id

/-- `consumeSongProgress(id)`: deletes the key from the map. -/
def consumeSongProgress (id : Nat) (m : List (Nat × Int)) : List (Nat × Int) :=
  m.filter (fun e => e.1 ≠ id)

/-- The synchronous prefix of `loadSong`: stamp the fresh request token into
`playRequestRef` before awaiting source resolution. -/
def loadIssue (t : Nat) (c : ControllerState) : ControllerState :=
  { c with playRequest := t }

/-- The continuation of `loadSong` once `getSourceUrl` resolves for `song`
with result `res` under token `t`, following the source line by line:
metadata-update early return; blob cleanup and `lastPlayedSourceRef`
update; failed resolution pauses; blob bookkeeping; the stale-token discard;
then source assignment and the resume-position logic.  Equality of raw
sources models both the JS `===` comparison and the File name+size
comparison. -/
def loadResolve (song : Song) (t : Nat) (res : Option LoadResult)
    (c : ControllerState) : ControllerState :=
  let raw : Option Nat := res.map LoadResult.raw
  let isMetadataUpdate := c.lastPlayedSource = raw
  if isMetadataUpdate ∧ c.playerSrc.isSome then c
  else
    let c1 := { c with activeObjectUrl := none, lastPlayedSource := raw }
    match res with
    | none => { c1 with isPlaying := false }
    | some r =>
      let c2 := if r.isBlob then { c1 with activeObjectUrl := some r.src } else c1
      if c2.playRequest ≠ t then c2
      else
        let c3 := { c2 with playerSrc := some r.src,
                            appliedTokens := c2.appliedTokens ++ [t] }
        match lookupProgress c3.songProgress song.id with
        | some savedTime =>
          if savedTime ≠ 0 ∧ 0 < savedTime ∧
             savedTime < (if song.duration ≠ 0 then song.duration else 300) - 10 then
            { c3 with playerTime := savedTime,
                      songProgress := consumeSongProgress song.id c3.songProgress }
          else
            { c3 with playerTime := 0 }
        | none => { c3 with playerTime := 0 }

/-! ### Startup session restore (initApp) -/

/-- The persisted session snapshot parsed from localStorage.  `index` is
`none` for a JSON null, `queueTitle` is `none` when absent. -/
structure Session where
  queueIds : List Nat
  index : Option Int
  isShuffled : Bool
  queueTitle : Option String
deriving DecidableEq

/-- `queueMap.get(id)` where `queueMap = new Map(initialSongs.map(s =>
[s.id, s]))`: a JS Map keeps the last entry for a duplicate key. -/
def mapGet (catalog : List Song) (id : Nat) : Option Song :=
  catalog.reverse.find? (fun s => s.id = id)

/-- JS `session.queueTitle || "Queue"` (undefined and the empty string are
falsy). -/
def titleOrDefault : Option String → String
  | none => "Queue"
  | some s => if s = "" then "Queue" else s

/-- The session-restore block of `initApp`, applied to the fresh store
state: with a nonempty catalog and a saved session whose id list resolves to
a nonempty queue, replace the queue, restore the shuffle flag, and set the
saved index only when it is non-null and below the restored length.  With no
saved session the whole catalog becomes the queue.  JSON parse failures and
absent/empty id lists are the `none`/empty cases. -/
def initRestore (catalog : List Song) (saved : Option Session)
    (st : PlayerState) : PlayerState :=
  if catalog.length = 0 then st
  else
    match saved with
    | none => setQueue catalog "All Songs" st
    | some session =>
      if session.queueIds.length = 0 then st
      else
        let restoredQueue := session.queueIds.filterMap (mapGet catalog)
        if restoredQueue.length = 0 then st
        else
          let st1 := setQueue restoredQueue (titleOrDefault session.queueTitle) st
          let st2 := if session.isShuffled then { st1 with isShuffled := true } else st1
          let st3 := setOriginalQueue restoredQueue st2
          match session.index with
          | some i =>
              if i < (restoredQueue.length : Int) then setCurrentIndex (some i) st3
              else st3
          | none => st3

/-! ### Helper lemmas: permutations produced by the queue mutations -/

theorem swapHead_perm {α : Type} :
    ∀ {xs : List α} {k : Nat} {b x : α}, xs[k]? = some b →
      (b :: xs.set k x).Perm (x :: xs) := by
  intro xs
  induction xs with
  | nil => intro k b x h; simp at h
  | cons y ys ih =>
    intro k b x h
    cases k with
    | zero =>
      simp at h
      subst h
      simpa using List.Perm.swap x y ys
    | succ m =>
      simp at h
      have h1 : (b :: y :: ys.set m x).Perm (y :: b :: ys.set m x) :=
        List.Perm.swap y b (ys.set m x)
      have h2 : (y :: b :: ys.set m x).Perm (y :: x :: ys) :=
        List.Perm.cons y (ih h)
      have h3 : (y :: x :: ys).Perm (x :: y :: ys) := List.Perm.swap x y ys
      simpa using (h1.trans h2).trans h3

theorem set_set_perm {α : Type} :
    ∀ {l : List α} {i j : Nat} {a b : α}, l[i]? = some a → l[j]? = some b →
      ((l.set i b).set j a).Perm l := by
  intro l
  induction l with
  | nil => intro i j a b hi hj; simp at hi
  | cons x xs ih =>
    intro i j a b hi hj
    cases i with
    | zero =>
      cases j with
      | zero =>
        simp at hi hj
        subst hi; subst hj
        simp
      | succ m =>
        simp at hi hj
        subst hi
        simpa using swapHead_perm hj
    | succ k =>
      cases j with
      | zero =>
        simp at hi hj
        subst hj
        simpa using swapHead_perm hi
      | succ m =>
        simp at hi hj
        simpa using List.Perm.cons x (ih hi hj)

theorem listSwap_perm {α : Type} (l : List α) (i j : Nat) :
    (listSwap l i j).Perm l := by
  unfold listSwap
  split
  · next a b hi hj => exact set_set_perm hi hj
  · exact List.Perm.refl l

theorem fyAux_perm {α : Type} (rand : Nat → Nat) :
    ∀ (n : Nat) (l : List α), (fyAux rand n l).Perm l := by
  intro n
  induction n with
  | zero => intro l; exact List.Perm.refl l
  | succ i ih =>
    intro l
    exact (ih _).trans (listSwap_perm l (i + 1) (rand (i + 1) % (i + 2)))

theorem fisherYates_perm {α : Type} (rand : Nat → Nat) (l : List α) :
    (fisherYates rand l).Perm l :=
  fyAux_perm rand (l.length - 1) l

/-! ### Helper lemmas: id sets of the queue mutations -/

theorem toFinset_surround (A X : List Nat) (k : Nat) :
    (A.take k ++ X ++ A.drop k).toFinset = X.toFinset ∪ A.toFinset := by
  have h : (A.take k).toFinset ∪ (A.drop k).toFinset = A.toFinset := by
    rw [← List.toFinset_append, List.take_append_drop]
  rw [List.toFinset_append, List.toFinset_append, Finset.union_assoc,
    Finset.union_comm X.toFinset, ← Finset.union_assoc, h, Finset.union_comm]

theorem toFinset_spliceInsert (l : List Song) (i : Int) (xs : List Song) :
    (queueIds (spliceInsert l i xs)).toFinset
      = (queueIds xs).toFinset ∪ (queueIds l).toFinset := by
  unfold spliceInsert queueIds
  rw [List.map_append, List.map_append, List.map_take, List.map_drop]
  exact toFinset_surround (l.map Song.id) (xs.map Song.id) _

theorem toFinset_append_ids (l xs : List Song) :
    (queueIds (l ++ xs)).toFinset
      = (queueIds xs).toFinset ∪ (queueIds l).toFinset := by
  unfold queueIds
  rw [List.map_append, List.toFinset_append, Finset.union_comm]

theorem queueIds_filter_ne (l : List Song) (n : Nat) :
    queueIds (l.filter fun s => s.id ≠ n) = (queueIds l).filter fun x => x ≠ n := by
  induction l with
  | nil => rfl
  | cons s ys ih =>
    by_cases h : s.id = n
    · simp [queueIds, List.filter_cons, h] at ih ⊢
      exact ih
    · simp [queueIds, List.filter_cons, h] at ih ⊢
      exact ih

theorem toFinset_filter_ne (l : List Song) (n : Nat) :
    (queueIds (l.filter fun s => s.id ≠ n)).toFinset
      = (queueIds l).toFinset.erase n := by
  rw [queueIds_filter_ne]
  ext a
  simp [List.mem_filter, Finset.mem_erase, and_comm]

theorem queueIds_update (l : List Song) (oid : Nat) (ns : Song) :
    queueIds (l.map fun s => if s.id = oid then ns else s)
      = (queueIds l).map fun x => if x = oid then ns.id else x := by
  induction l with
  | nil => rfl
  | cons s ys ih =>
    by_cases h : s.id = oid <;> simp [queueIds, h] at ih ⊢ <;> exact ih

theorem jsIndex_mem {l : List Song} {i : Int} {a : Song}
    (h : jsIndex l i = some a) : a ∈ l := by
  unfold jsIndex at h
  split at h
  · exact absurd h (by simp)
  · exact List.getElem?_mem h

theorem findIdx_of_mem {α : Type} {l : List α} {p : α → Bool} {a : α}
    (ha : a ∈ l) (hp : p a = true) :
    ∃ k, l.findIdx? p = some k ∧ k < l.length := by
  induction l with
  | nil => exact absurd ha (by simp)
  | cons x xs ih =>
    by_cases hx : p x
    · exact ⟨0, by simp [List.findIdx?_cons, hx], by simp⟩
    · have hmem : a ∈ xs := by
        cases ha with
        | head => exact absurd hp (by simp [hx])
        | tail _ h => exact h
      obtain ⟨k, hk, hlt⟩ := ih hmem
      exact ⟨k + 1, by simp [List.findIdx?_cons, hx, hk], by simpa using hlt⟩

theorem perm_remove_at {α : Type} :
    ∀ {l : List α} {s : Nat} {a : α}, l[s]? = some a →
      l.Perm (a :: (l.take s ++ l.drop (s + 1))) := by
  intro l
  induction l with
  | nil => intro s a h; simp at h
  | cons x xs ih =>
    intro s a h
    cases s with
    | zero =>
      simp at h
      subst h
      simp
    | succ k =>
      simp at h
      have h1 : (x :: xs).Perm (x :: a :: (xs.take k ++ xs.drop (k + 1))) :=
        List.Perm.cons x (ih h)
      have h2 : (x :: a :: (xs.take k ++ xs.drop (k + 1))).Perm
          (a :: x :: (xs.take k ++ xs.drop (k + 1))) :=
        List.Perm.swap a x _
      simpa using h1.trans h2

theorem toFinset_ids_of_perm {l l2 : List Song} (h : l.Perm l2) :
    (queueIds l).toFinset = (queueIds l2).toFinset :=
  List.toFinset_eq_of_perm _ _ (h.map Song.id)

/-- The permuted active queue produced by an in-range reorder. -/
theorem reorder_result_perm {l : List Song} {s : Nat} {a : Song} (e : Nat)
    (h : l[s]? = some a) :
    ((l.take s ++ l.drop (s + 1)).take e ++ a :: (l.take s ++ l.drop (s + 1)).drop e).Perm l := by
  have h1 := @List.perm_middle _ a ((l.take s ++ l.drop (s + 1)).take e)
    ((l.take s ++ l.drop (s + 1)).drop e)
  rw [List.take_append_drop] at h1
  exact h1.trans (perm_remove_at h).symm

/-! ### Preservation of the id-set invariant by every section 4.1 operation -/

theorem sameIds_setQueue (songs : List Song) (title : String) (st : PlayerState) :
    sameIds (setQueue songs title st) := by
  unfold sameIds setQueue
  rfl

theorem sameIds_addToQueue (song : Song) {st : PlayerState} (h : sameIds st) :
    sameIds (addToQueue song st) := by
  unfold sameIds at h ⊢
  unfold addToQueue
  dsimp only
  rw [toFinset_append_ids, toFinset_append_ids, h]

theorem sameIds_playNext (song : Song) {st : PlayerState} (h : sameIds st) :
    sameIds (playNext song st) := by
  unfold sameIds at h ⊢
  unfold playNext
  cases hc : st.currentIndex with
  | none => rfl
  | some c =>
    dsimp only
    cases hj : jsIndex st.queue c with
    | none => exact h
    | some currentSong =>
      dsimp only
      by_cases ho : jsFindIndex st.originalQueue (fun s => s.id == currentSong.id) ≠ -1
      · rw [if_pos ho, toFinset_spliceInsert, toFinset_spliceInsert, h]
      · rw [if_neg ho, toFinset_spliceInsert, toFinset_append_ids, h]

theorem sameIds_bulkAdd (songs : List Song) (next : Bool) {st : PlayerState}
    (h : sameIds st) : sameIds (bulkAddToQueue songs next st) := by
  unfold sameIds at h ⊢
  unfold bulkAddToQueue
  cases next with
  | false =>
    rw [if_neg (by simp)]
    dsimp only
    rw [toFinset_append_ids, toFinset_append_ids, h]
  | true =>
    rw [if_pos rfl]
    cases hc : st.currentIndex with
    | none => rfl
    | some c =>
      dsimp only
      cases hj : jsIndex st.queue c with
      | none => exact h
      | some currentSong =>
        dsimp only
        by_cases ho : jsFindIndex st.originalQueue (fun s => s.id == currentSong.id) ≠ -1
        · rw [if_pos ho, toFinset_spliceInsert, toFinset_spliceInsert, h]
        · rw [if_neg ho, toFinset_spliceInsert, toFinset_append_ids, h]

theorem sameIds_delete (songId : Nat) {st : PlayerState} (h : sameIds st) :
    sameIds (deleteSongFromQueue songId st) := by
  unfold sameIds at h ⊢
  unfold deleteSongFromQueue
  cases hc : st.currentIndex with
  | none =>
    dsimp only
    rw [toFinset_filter_ne, toFinset_filter_ne, h]
  | some c =>
    dsimp only
    cases hj : jsIndex st.queue c with
    | none => exact h
    | some cur =>
      dsimp only
      by_cases hid : cur.id = songId
      · rw [if_pos hid]
        dsimp only
        rw [toFinset_filter_ne, toFinset_filter_ne, h]
      · rw [if_neg hid]
        dsimp only
        rw [toFinset_filter_ne, toFinset_filter_ne, h]

theorem sameIds_reorder (s e : Nat) {st : PlayerState} (h : sameIds st) :
    sameIds (reorderQueue s e st) := by
  unfold sameIds at h ⊢
  unfold reorderQueue
  cases hs : st.queue[s]? with
  | none => exact h
  | some removed =>
    dsimp only
    have hp := reorder_result_perm (l := st.queue) (s := s) (a := removed) e hs
    cases hsh : st.isShuffled with
    | true =>
      rw [if_pos rfl]
      rw [toFinset_ids_of_perm hp, h]
    | false =>
      rw [if_neg (by simp)]

theorem sameIds_toggle (rand : Nat → Nat) {st : PlayerState} (h : sameIds st) :
    sameIds (toggleShuffle rand st) := by
  unfold sameIds at h ⊢
  unfold toggleShuffle
  cases hc : st.currentIndex with
  | none => exact h
  | some c =>
    dsimp only
    by_cases hlen : st.queue.length = 0
    · rw [if_pos hlen]
      exact h
    · rw [if_neg hlen]
      cases hj : jsIndex st.queue c with
      | none => exact h
      | some currentSong =>
        dsimp only
        cases hsh : st.isShuffled with
        | true => rw [if_pos rfl]
        | false =>
          rw [if_neg (by simp)]
          dsimp only
          have hmem : currentSong.id ∈ (queueIds st.queue).toFinset := by
            simp only [queueIds, List.mem_toFinset, List.mem_map]
            exact ⟨currentSong, jsIndex_mem hj, rfl⟩
          have hfy := toFinset_ids_of_perm
            (fisherYates_perm rand (st.queue.filter fun x => x.id ≠ currentSong.id))
          calc (queueIds (currentSong ::
                fisherYates rand (st.queue.filter fun x => x.id ≠ currentSong.id))).toFinset
              = insert currentSong.id
                  (queueIds (fisherYates rand
                    (st.queue.filter fun x => x.id ≠ currentSong.id))).toFinset := by
                simp [queueIds]
            _ = insert currentSong.id
                  (queueIds (st.queue.filter fun x => x.id ≠ currentSong.id)).toFinset := by
                rw [hfy]
            _ = insert currentSong.id ((queueIds st.queue).toFinset.erase currentSong.id) := by
                rw [toFinset_filter_ne]
            _ = (queueIds st.queue).toFinset := Finset.insert_erase hmem
            _ = (queueIds st.originalQueue).toFinset := h

theorem toFinset_map_congr {A B : List Nat} (g : Nat → Nat)
    (h : A.toFinset = B.toFinset) : (A.map g).toFinset = (B.map g).toFinset := by
  have hm : ∀ a : Nat, a ∈ A ↔ a ∈ B := by
    intro a
    rw [← List.mem_toFinset, h, List.mem_toFinset]
  ext x
  simp only [List.mem_toFinset, List.mem_map]
  constructor
  · rintro ⟨a, ha, hx⟩
    exact ⟨a, (hm a).mp ha, hx⟩
  · rintro ⟨a, ha, hx⟩
    exact ⟨a, (hm a).mpr ha, hx⟩

theorem sameIds_update (oid : Nat) (ns : Song) {st : PlayerState} (h : sameIds st) :
    sameIds (updateSongInQueue oid ns st) := by
  unfold sameIds at h ⊢
  unfold updateSongInQueue
  dsimp only
  rw [queueIds_update, queueIds_update]
  exact toFinset_map_congr _ h

theorem jsSpliceStart_le (len : Nat) (i : Int) : jsSpliceStart len i ≤ len := by
  unfold jsSpliceStart
  split
  · omega
  · omega

theorem spliceInsert_length {α : Type} (l : List α) (i : Int) (xs : List α) :
    (spliceInsert l i xs).length = l.length + xs.length := by
  unfold spliceInsert
  have hk := jsSpliceStart_le l.length i
  simp [List.length_append, List.length_take, List.length_drop]
  omega

theorem jsIndex_some_of_bounds {α : Type} {l : List α} {c : Int}
    (h0 : 0 ≤ c) (h1 : c < (l.length : Int)) : ∃ a, jsIndex l c = some a := by
  unfold jsIndex
  rw [if_neg (by omega)]
  have hlt : c.toNat < l.length := by omega
  exact ⟨l[c.toNat], List.getElem?_eq_getElem hlt⟩

theorem jsFindIndex_bounds {α : Type} {l : List α} {p : α → Bool} {a : α}
    (ha : a ∈ l) (hp : p a = true) :
    0 ≤ jsFindIndex l p ∧ jsFindIndex l p < (l.length : Int) := by
  obtain ⟨k, hk, hlt⟩ := findIdx_of_mem ha hp
  unfold jsFindIndex
  rw [hk]
  dsimp only
  omega

/-! ### Preservation of the index bound -/

theorem indexInBounds_addToQueue (song : Song) {st : PlayerState}
    (h : indexInBounds st) : indexInBounds (addToQueue song st) := by
  unfold indexInBounds at h
  unfold indexInBounds addToQueue
  dsimp only
  cases hsc : st.currentIndex with
  | none => trivial
  | some c =>
    rw [hsc] at h
    dsimp only at h
    simp only [List.length_append, List.length_cons, List.length_nil]
    omega

theorem indexInBounds_playNext (song : Song) {st : PlayerState}
    (h : indexInBounds st) : indexInBounds (playNext song st) := by
  unfold indexInBounds at h
  unfold indexInBounds playNext
  cases hsc : st.currentIndex with
  | none =>
    dsimp only
    norm_num
  | some c =>
    rw [hsc] at h
    dsimp only at h
    dsimp only
    obtain ⟨a, ha⟩ := jsIndex_some_of_bounds h.1 h.2 (l := st.queue)
    rw [ha]
    dsimp only
    rw [spliceInsert_length]
    simp only [List.length_cons, List.length_nil]
    omega

theorem indexInBounds_bulkAdd (songs : List Song) (next : Bool) {st : PlayerState}
    (h : indexInBounds st) (hne : songs ≠ []) :
    indexInBounds (bulkAddToQueue songs next st) := by
  unfold indexInBounds at h
  unfold indexInBounds bulkAddToQueue
  cases next with
  | false =>
    rw [if_neg (by simp)]
    dsimp only
    cases hsc : st.currentIndex with
    | none => trivial
    | some c =>
      rw [hsc] at h
      dsimp only at h
      simp only [List.length_append]
      omega
  | true =>
    rw [if_pos rfl]
    cases hsc : st.currentIndex with
    | none =>
      dsimp only
      have hpos : 0 < songs.length := List.length_pos.mpr hne
      constructor
      · omega
      · omega
    | some c =>
      rw [hsc] at h
      dsimp only at h
      dsimp only
      obtain ⟨a, ha⟩ := jsIndex_some_of_bounds h.1 h.2 (l := st.queue)
      rw [ha]
      dsimp only
      rw [spliceInsert_length]
      omega

theorem indexInBounds_delete (songId : Nat) {st : PlayerState}
    (h : indexInBounds st) : indexInBounds (deleteSongFromQueue songId st) := by
  unfold indexInBounds at h
  unfold indexInBounds deleteSongFromQueue
  cases hsc : st.currentIndex with
  | none => dsimp only
  | some c =>
    rw [hsc] at h
    dsimp only at h
    dsimp only
    obtain ⟨cur, hcur⟩ := jsIndex_some_of_bounds h.1 h.2 (l := st.queue)
    rw [hcur]
    dsimp only
    by_cases hid : cur.id = songId
    · rw [if_pos hid]
      dsimp only
    · rw [if_neg hid]
      dsimp only
      have hmem : cur ∈ st.queue.filter (fun s => s.id ≠ songId) := by
        simp only [List.mem_filter]
        exact ⟨jsIndex_mem hcur, by simp [hid]⟩
      exact jsFindIndex_bounds hmem (by simp)

theorem indexInBounds_reorder (s e : Nat) {st : PlayerState}
    (h : indexInBounds st) (hs : s < st.queue.length) (he : e < st.queue.length) :
    indexInBounds (reorderQueue s e st) := by
  unfold indexInBounds at h
  unfold indexInBounds reorderQueue
  have hget : st.queue[s]? = some st.queue[s] := List.getElem?_eq_getElem hs
  rw [hget]
  dsimp only
  have hreslen : ((st.queue.take s ++ st.queue.drop (s + 1)).take e ++
      st.queue[s] :: (st.queue.take s ++ st.queue.drop (s + 1)).drop e).length
        = st.queue.length := by
    simp only [List.length_append, List.length_take, List.length_drop, List.length_cons]
    omega
  cases hsc : st.currentIndex with
  | none => dsimp only
  | some c =>
    rw [hsc] at h
    dsimp only at h
    dsimp only
    by_cases h1 : c = (s : Int)
    · rw [if_pos h1]
      dsimp only
      rw [hreslen]
      omega
    · rw [if_neg h1]
      by_cases h2 : (s : Int) < c ∧ (e : Int) ≥ c
      · rw [if_pos h2]
        dsimp only
        rw [hreslen]
        omega
      · rw [if_neg h2]
        by_cases h3 : (s : Int) > c ∧ (e : Int) ≤ c
        · rw [if_pos h3]
          dsimp only
          rw [hreslen]
          omega
        · rw [if_neg h3]
          dsimp only
          rw [hreslen]
          omega

theorem indexInBounds_toggle (rand : Nat → Nat) {st : PlayerState}
    (hinv : queueInv st) : indexInBounds (toggleShuffle rand st) := by
  obtain ⟨h, hsame⟩ := hinv
  unfold indexInBounds at h
  unfold sameIds at hsame
  unfold indexInBounds toggleShuffle
  cases hsc : st.currentIndex with
  | none =>
    dsimp only
    rw [hsc]
    trivial
  | some c =>
    rw [hsc] at h
    dsimp only at h
    dsimp only
    by_cases hlen : st.queue.length = 0
    · rw [if_pos hlen]
      rw [hsc]
      dsimp only
      exact h
    · rw [if_neg hlen]
      obtain ⟨cur, hcur⟩ := jsIndex_some_of_bounds h.1 h.2 (l := st.queue)
      rw [hcur]
      dsimp only
      cases hsh : st.isShuffled with
      | false =>
        rw [if_neg (by simp)]
        dsimp only
        simp only [List.length_cons]
        omega
      | true =>
        rw [if_pos rfl]
        dsimp only
        have hcurmem : cur.id ∈ (queueIds st.queue).toFinset := by
          simp only [queueIds, List.mem_toFinset, List.mem_map]
          exact ⟨cur, jsIndex_mem hcur, rfl⟩
        rw [hsame] at hcurmem
        simp only [queueIds, List.mem_toFinset, List.mem_map] at hcurmem
        obtain ⟨s2, hs2mem, hs2id⟩ := hcurmem
        have hb := jsFindIndex_bounds hs2mem
          (p := fun x => x.id == cur.id) (by simp [hs2id])
        have hne : jsFindIndex st.originalQueue (fun x => x.id == cur.id) ≠ -1 := by
          omega
        rw [if_pos hne]
        exact hb

/-- Every section 4.1 operation preserves id-set equality of the two
orderings. -/
theorem sameIds_applyOp (op : QueueOp) {st : PlayerState} (h : sameIds st) :
    sameIds (applyOp op st) := by
  cases op with
  | replace tracks title => exact sameIds_setQueue tracks title st
  | insertEnd song => exact sameIds_addToQueue song h
  | insertNext song => exact sameIds_playNext song h
  | bulkInsert songs next => exact sameIds_bulkAdd songs next h
  | remove songId => exact sameIds_delete songId h
  | reorder s e => exact sameIds_reorder s e h
  | shuffleToggle rand => exact sameIds_toggle rand h
  | update oid ns => exact sameIds_update oid ns h

/-- Combined invariant preservation for the operations of the bounds claim,
with representable reorder indices and nonempty bulk inserts. -/
theorem queueInv_applyOp (op : QueueOp) {st : PlayerState}
    (hinv : queueInv st) (hc3 : isC3Op op) (hok : okOp op st) :
    queueInv (applyOp op st) := by
  refine ⟨?_, sameIds_applyOp op hinv.2⟩
  cases op with
  | replace tracks title => exact False.elim hc3
  | update oid ns => exact False.elim hc3
  | insertEnd song => exact indexInBounds_addToQueue song hinv.1
  | insertNext song => exact indexInBounds_playNext song hinv.1
  | bulkInsert songs next => exact indexInBounds_bulkAdd songs next hinv.1 hok
  | remove songId => exact indexInBounds_delete songId hinv.1
  | reorder s e => exact indexInBounds_reorder s e hinv.1 hok.1 hok.2
  | shuffleToggle rand => exact indexInBounds_toggle rand hinv

instance (op : QueueOp) (st : PlayerState) : Decidable (argsOk op st) :=
  match op with
  | .replace _ _ => inferInstanceAs (Decidable True)
  | .insertEnd _ => inferInstanceAs (Decidable True)
  | .insertNext _ => inferInstanceAs (Decidable True)
  | .bulkInsert _ _ => inferInstanceAs (Decidable True)
  | .remove _ => inferInstanceAs (Decidable True)
  | .reorder s e =>
      inferInstanceAs (Decidable (s < st.queue.length ∧ e < st.queue.length))
  | .shuffleToggle _ => inferInstanceAs (Decidable True)
  | .update _ _ => inferInstanceAs (Decidable True)

instance (op : QueueOp) : Decidable (isC3Op op) :=
  match op with
  | .replace _ _ => inferInstanceAs (Decidable False)
  | .insertEnd _ => inferInstanceAs (Decidable True)
  | .insertNext _ => inferInstanceAs (Decidable True)
  | .bulkInsert _ _ => inferInstanceAs (Decidable True)
  | .remove _ => inferInstanceAs (Decidable True)
  | .reorder _ _ => inferInstanceAs (Decidable True)
  | .shuffleToggle _ => inferInstanceAs (Decidable True)
  | .update _ _ => inferInstanceAs (Decidable False)

instance (op : QueueOp) (st : PlayerState) : Decidable (okOp op st) :=
  match op with
  | .replace tracks title => inferInstanceAs (Decidable (argsOk (.replace tracks title) st))
  | .insertEnd song => inferInstanceAs (Decidable (argsOk (.insertEnd song) st))
  | .insertNext song => inferInstanceAs (Decidable (argsOk (.insertNext song) st))
  | .bulkInsert songs _ => inferInstanceAs (Decidable (songs ≠ []))
  | .remove songId => inferInstanceAs (Decidable (argsOk (.remove songId) st))
  | .reorder s e => inferInstanceAs (Decidable (argsOk (.reorder s e) st))
  | .shuffleToggle rand => inferInstanceAs (Decidable (argsOk (.shuffleToggle rand) st))
  | .update oid ns => inferInstanceAs (Decidable (argsOk (.update oid ns) st))

/-- Transitive closure of the operations admitted by the bounds claim,
each invoked with representable reorder indices and nonempty bulk lists. -/
inductive C3Steps : PlayerState → PlayerState → Prop where
  | refl (st : PlayerState) : C3Steps st st
  | step {st1 st2 : PlayerState} (op : QueueOp) :
      C3Steps st1 st2 → isC3Op op → okOp op st2 → C3Steps st1 (applyOp op st2)

/-- Three concrete distinct tracks used by the scenario claims. -/
def songA : Song := ⟨1, "A", 200⟩

def songB : Song := ⟨2, "B", 200⟩

def songC : Song := ⟨3, "C", 200⟩

/-- The scenario state: queue [A,B,C], canonical [A,B,C], current index 0,
shuffle off. -/
def stABC : PlayerState :=
  { queue := [songA, songB, songC], originalQueue := [songA, songB, songC],
    currentIndex := some 0, isShuffled := false, isPlaying := false,
    queueTitle := "Queue" }

/-! ### Claim C2 -/

/-- C2: for every queue state reachable through the section 4.1 operations
(replace, insert-next, insert-end, bulk-insert, remove, reorder,
shuffle-toggle, in-place track update), the active ordering and the
canonical ordering contain exactly the same set of track identifiers. -/
theorem C2_active_canonical_same_id_sets {st : PlayerState}
    (h : Reachable st) : sameIds st := by
  induction h with
  | init => rfl
  | step op hr hargs ih => exact sameIds_applyOp op ih

/-- Witness for C2: the invariant holds at a concrete reachable state. -/
theorem C2_witness :
    sameIds (applyOp (QueueOp.insertEnd songA) initialState) :=
  C2_active_canonical_same_id_sets
    (Reachable.step (QueueOp.insertEnd songA) Reachable.init trivial)

/-! ### Claim C3 -/

/-- C3 counterexample: from the bound-satisfying state with queue [A,B,C]
and current index 0, a single reorder call whose end index is past the end
of the queue (the drop position JS clamps when splicing, but not when
recomputing the index) moves the moved-track index to 5, violating
0 ≤ currentIndex < active.length. -/
theorem C3_counterexample :
    indexInBounds stABC ∧
    (reorderQueue 0 5 stABC).queue = [songB, songC, songA] ∧
    (reorderQueue 0 5 stABC).currentIndex = some 5 ∧
    ¬ indexInBounds (reorderQueue 0 5 stABC) := by
  decide

/-- C3 (amended): for every sequence of reorder, insert (single and bulk),
remove, and shuffle-toggle calls in which every reorder call names two
positions inside the active queue and every bulk insert carries a nonempty
list, starting from a state satisfying the index bound together with
active/canonical id-set equality, whenever currentIndex is not null it
satisfies 0 ≤ currentIndex < active.length. -/
theorem C3_index_bound_amended {st0 st : PlayerState}
    (h0 : queueInv st0) (hs : C3Steps st0 st) : indexInBounds st := by
  have hinv : queueInv st := by
    induction hs with
    | refl => exact h0
    | step op hsteps hc3 hok ih => exact queueInv_applyOp op ih hc3 hok
  exact hinv.1

/-- Witness for C3 (amended): a concrete in-range reorder from the scenario
state keeps the index in bounds. -/
theorem C3_witness :
    queueInv stABC ∧ indexInBounds (applyOp (QueueOp.reorder 0 2) stABC) :=
  ⟨by decide,
   C3_index_bound_amended (by decide)
     (C3Steps.step (QueueOp.reorder 0 2) (C3Steps.refl stABC) trivial (by decide))⟩

/-! ### Claim C9 -/

/-- C9: starting from queue [A,B,C] with currentIndex 0, one toggleShuffle
yields an active ordering whose first element is A with currentIndex 0, and
a second toggleShuffle restores active = [A,B,C] with currentIndex 0, for
any random draws of the shuffles. -/
theorem C9_shuffle_roundtrip (rand1 rand2 : Nat → Nat) :
    (toggleShuffle rand1 stABC).queue.head? = some songA ∧
    (toggleShuffle rand1 stABC).currentIndex = some 0 ∧
    (toggleShuffle rand2 (toggleShuffle rand1 stABC)).queue
      = [songA, songB, songC] ∧
    (toggleShuffle rand2 (toggleShuffle rand1 stABC)).currentIndex = some 0 := by
  have h1 : toggleShuffle rand1 stABC =
      { queue := songA :: fisherYates rand1 [songB, songC],
        originalQueue := [songA, songB, songC], currentIndex := some 0,
        isShuffled := true, isPlaying := false, queueTitle := "Queue" } := rfl
  refine ⟨rfl, rfl, ?_, ?_⟩ <;>
  · rw [h1]
    unfold toggleShuffle
    simp [jsIndex, jsFindIndex, List.findIdx?_cons, songA, songB, songC]

/-! ### Claim C10 -/

/-- C10: when currentIndex is null or the queue is empty, toggleShuffle
returns the player state unchanged in every field; the shuffle operation is
only effective when a current track exists. -/
theorem C10_toggle_noop (rand : Nat → Nat) (st : PlayerState)
    (h : st.currentIndex = none ∨ st.queue = []) :
    toggleShuffle rand st = st := by
  unfold toggleShuffle
  cases hsc : st.currentIndex with
  | none => rfl
  | some c =>
    rcases h with h | h
    · rw [h] at hsc
      exact Option.noConfusion hsc
    · dsimp only
      rw [if_pos (by rw [h]; rfl)]

/-- Witness for C10: toggling on the fresh empty store is the identity. -/
theorem C10_witness :
    (initialState.currentIndex = none ∨ initialState.queue = []) ∧
    toggleShuffle (fun n => n) initialState = initialState :=
  ⟨Or.inl rfl, C10_toggle_noop (fun n => n) initialState (Or.inl rfl)⟩

/-! ### Claim C6 -/

/-- C6 counterexample: seek(-5) with a known duration of 100 stores -5
(no lower clamp into [0, knownDuration]), and seek(50) with an unknown
duration assigns 50 to the transport position rather than being a no-op. -/
theorem C6_counterexample :
    (AudioEngine.seek (-5) { currentTime := 0, duration := some 100 }).currentTime = -5 ∧
    ¬ (0 ≤ (AudioEngine.seek (-5)
        { currentTime := 0, duration := some 100 }).currentTime) ∧
    (AudioEngine.seek 50 { currentTime := 0, duration := none }).currentTime = 50 ∧
    AudioEngine.seek 50 { currentTime := 0, duration := none }
      ≠ ({ currentTime := 0, duration := none } : AudioPlayer) := by
  decide

/-- C6 (amended): for every finite input time, when the resource's duration
is known and nonzero, seek assigns min(time, duration) -- an upper clamp
only, with no lower clamp at 0; when the duration is unknown (NaN) or zero,
seek assigns the requested time unchanged. -/
theorem C6_seek_amended (time : Int) (p : AudioPlayer) :
    (∀ d : Int, p.duration = some d → d ≠ 0 →
      (AudioEngine.seek time p).currentTime = min time d) ∧
    (p.duration = none ∨ p.duration = some 0 →
      (AudioEngine.seek time p).currentTime = time) := by
  unfold AudioEngine.seek
  constructor
  · intro d hd hdz
    simp [durationTruthy, hd, hdz]
  · intro h
    rcases h with h | h <;> simp [durationTruthy, h]

/-- Witness for C6 (amended): both branches at concrete inputs. -/
theorem C6_witness :
    (AudioEngine.seek 200 { currentTime := 0, duration := some 100 }).currentTime
      = min 200 100 ∧
    (AudioEngine.seek 7 { currentTime := 0, duration := none }).currentTime = 7 :=
  ⟨(C6_seek_amended 200 { currentTime := 0, duration := some 100 }).1
      100 rfl (by decide),
   (C6_seek_amended 7 { currentTime := 0, duration := none }).2 (Or.inl rfl)⟩

/-! ### Claim C7 -/

/-- C7 counterexample: on the fresh store (empty queue) the index 5 is out
of range, yet setCurrentIndex stores it verbatim instead of clamping it to
null. -/
theorem C7_counterexample :
    initialState.queue.length = 0 ∧
    (setCurrentIndex (some 5) initialState).currentIndex = some 5 ∧
    (setCurrentIndex (some 5) initialState).currentIndex ≠ none := by
  decide

/-- C7 (amended): setCurrentIndex stores the given index unconditionally
and changes nothing else: an in-range index sets the current position, and
an out-of-range index is stored as-is with no clamping to null. -/
theorem C7_setIndex_amended (i : Option Int) (st : PlayerState) :
    (setCurrentIndex i st).currentIndex = i ∧
    (setCurrentIndex i st).queue = st.queue ∧
    (setCurrentIndex i st).originalQueue = st.originalQueue ∧
    (setCurrentIndex i st).isShuffled = st.isShuffled ∧
    (setCurrentIndex i st).isPlaying = st.isPlaying ∧
    (setCurrentIndex i st).queueTitle = st.queueTitle :=
  ⟨rfl, rfl, rfl, rfl, rfl, rfl⟩

/-! ### Claim C5 -/

theorem mapGet_id {catalog : List Song} {i : Nat} {s : Song}
    (h : mapGet catalog i = some s) : s.id = i := by
  unfold mapGet at h
  have hp := List.find?_some h
  simpa using hp

/-- The ids of the restored queue are exactly the saved ids that resolve in
the catalog, in saved order. -/
theorem queueIds_filterMap_mapGet (catalog : List Song) (ids : List Nat) :
    queueIds (ids.filterMap (mapGet catalog))
      = ids.filter (fun i => (mapGet catalog i).isSome) := by
  induction ids with
  | nil => rfl
  | cons i rest ih =>
    cases hm : mapGet catalog i with
    | none => simp [List.filterMap_cons, List.filter_cons, hm, ih]
    | some s =>
      simp [List.filterMap_cons, List.filter_cons, hm, queueIds, mapGet_id hm] at ih ⊢
      exact ih

/-- A persisted session whose saved index 5 exceeds the filtered length. -/
def sessOut : Session :=
  { queueIds := [1], index := some 5, isShuffled := false, queueTitle := none }

/-- C5 counterexample: restoring a session whose saved index 5 is out of
range of the one-track filtered list leaves currentIndex null instead of
clamping it into the list. -/
theorem C5_counterexample :
    (initRestore [songA] (some sessOut) initialState).queue = [songA] ∧
    (initRestore [songA] (some sessOut) initialState).currentIndex = none := by
  decide

/-- C5 (amended): with a nonempty catalog and a saved session whose id list
resolves to a nonempty queue, startup restore builds the queue from the
saved ids in order, silently dropping every id with no catalog match;
the saved index is applied only when it is non-null and below the filtered
length (it is not clamped: an out-of-range saved index leaves currentIndex
as it was, i.e. null on the fresh store); the playing flag is untouched, so
playback does not auto-start. -/
theorem C5_restore_amended (catalog : List Song) (sess : Session)
    (st : PlayerState) (hcat : catalog ≠ [])
    (hids : sess.queueIds ≠ [])
    (hres : sess.queueIds.filterMap (mapGet catalog) ≠ []) :
    (initRestore catalog (some sess) st).queue
        = sess.queueIds.filterMap (mapGet catalog) ∧
    (initRestore catalog (some sess) st).originalQueue
        = sess.queueIds.filterMap (mapGet catalog) ∧
    queueIds (sess.queueIds.filterMap (mapGet catalog))
        = sess.queueIds.filter (fun i => (mapGet catalog i).isSome) ∧
    (initRestore catalog (some sess) st).currentIndex
        = (match sess.index with
           | some i =>
               if i < ((sess.queueIds.filterMap (mapGet catalog)).length : Int)
               then some i else st.currentIndex
           | none => st.currentIndex) ∧
    (initRestore catalog (some sess) st).isPlaying = st.isPlaying := by
  unfold initRestore
  rw [if_neg (fun h => hcat (List.length_eq_zero.mp h))]
  dsimp only
  rw [if_neg (fun h => hids (List.length_eq_zero.mp h))]
  rw [if_neg (fun h => hres (List.length_eq_zero.mp h))]
  refine ⟨?_, ?_, queueIds_filterMap_mapGet catalog sess.queueIds, ?_, ?_⟩ <;>
  · cases hio : sess.index with
    | none =>
        by_cases hsh : sess.isShuffled <;>
          simp [hsh, setQueue, setOriginalQueue, setCurrentIndex]
    | some i =>
        by_cases hlt : i < ((sess.queueIds.filterMap (mapGet catalog)).length : Int) <;>
          by_cases hsh : sess.isShuffled <;>
            simp [hsh, hlt, setQueue, setOriginalQueue, setCurrentIndex]

/-- Session used by the C5 witness: one unmatched id is dropped and the
saved index 1 is in range of the two resolved tracks. -/
def sessW : Session :=
  { queueIds := [2, 7, 1], index := some 1, isShuffled := true,
    queueTitle := some "T" }

/-- Witness for C5 (amended): concrete restore with a dropped id. -/
theorem C5_witness :
    (initRestore [songA, songB] (some sessW) initialState).queue = [songB, songA] ∧
    (initRestore [songA, songB] (some sessW) initialState).currentIndex = some 1 ∧
    (initRestore [songA, songB] (some sessW) initialState).isPlaying = false := by
  have h := C5_restore_amended [songA, songB] sessW initialState
    (by decide) (by decide) (by decide)
  refine ⟨?_, ?_, ?_⟩
  · rw [h.1]
    decide
  · rw [h.2.2.2.1]
    decide
  · rw [h.2.2.2.2]
    rfl

/-! ### Controller lemmas -/

theorem lookupProgress_consume (m : List (Nat × Int)) (id : Nat) :
    lookupProgress (consumeSongProgress id m) id = none := by
  induction m with
  | nil => rfl
  | cons e rest ih =>
    obtain ⟨k, v⟩ := e
    by_cases he : k = id
    · simpa [consumeSongProgress, List.filter_cons, he] using ih
    · have hb : (id == k) = false := by
        simp only [beq_eq_false_iff_ne, ne_eq]
        exact fun h => he h.symm
      simp only [consumeSongProgress, List.filter_cons] at ih ⊢
      rw [if_pos (by simpa using he)]
      simpa [lookupProgress, List.lookup, hb] using ih

/-- A resolution whose token still matches the latest request and which is
not a metadata-only update assigns its source to the player and logs its
token; the token ref and the playing flag are not changed by it. -/
theorem loadResolve_applied (song : Song) (t : Nat) (r : LoadResult)
    (c : ControllerState)
    (hmeta : ¬ (c.lastPlayedSource = some r.raw ∧ c.playerSrc.isSome = true))
    (htok : c.playRequest = t) :
    (loadResolve song t (some r) c).playerSrc = some r.src ∧
    (loadResolve song t (some r) c).appliedTokens = c.appliedTokens ++ [t] ∧
    (loadResolve song t (some r) c).playRequest = c.playRequest ∧
    (loadResolve song t (some r) c).lastPlayedSource = some r.raw ∧
    (loadResolve song t (some r) c).isPlaying = c.isPlaying := by
  unfold loadResolve
  simp only [Option.map_some']
  rw [if_neg hmeta]
  by_cases hb : r.isBlob = true
  · rw [if_pos hb]
    rw [if_neg (not_not_intro htok)]
    cases hl : lookupProgress c.songProgress song.id with
    | none => exact ⟨rfl, rfl, rfl, rfl, rfl⟩
    | some v =>
      dsimp only
      by_cases hcond : v ≠ 0 ∧ 0 < v ∧
          v < (if song.duration ≠ 0 then song.duration else 300) - 10
      · rw [if_pos hcond]
        exact ⟨rfl, rfl, rfl, rfl, rfl⟩
      · rw [if_neg hcond]
        exact ⟨rfl, rfl, rfl, rfl, rfl⟩
  · rw [if_neg hb]
    rw [if_neg (not_not_intro htok)]
    cases hl : lookupProgress c.songProgress song.id with
    | none => exact ⟨rfl, rfl, rfl, rfl, rfl⟩
    | some v =>
      dsimp only
      by_cases hcond : v ≠ 0 ∧ 0 < v ∧
          v < (if song.duration ≠ 0 then song.duration else 300) - 10
      · rw [if_pos hcond]
        exact ⟨rfl, rfl, rfl, rfl, rfl⟩
      · rw [if_neg hcond]
        exact ⟨rfl, rfl, rfl, rfl, rfl⟩

/-- A resolution whose token no longer matches the latest request never
touches the player source, the applied-token log, the token ref, the
transport position or the progress store: the stale result is discarded. -/
theorem loadResolve_stale (song : Song) (t : Nat) (r : LoadResult)
    (c : ControllerState) (htok : c.playRequest ≠ t) :
    (loadResolve song t (some r) c).playerSrc = c.playerSrc ∧
    (loadResolve song t (some r) c).appliedTokens = c.appliedTokens ∧
    (loadResolve song t (some r) c).playRequest = c.playRequest ∧
    (loadResolve song t (some r) c).playerTime = c.playerTime ∧
    (loadResolve song t (some r) c).songProgress = c.songProgress := by
  unfold loadResolve
  simp only [Option.map_some']
  by_cases hm : c.lastPlayedSource = some r.raw ∧ c.playerSrc.isSome = true
  · rw [if_pos hm]
    exact ⟨rfl, rfl, rfl, rfl, rfl⟩
  · rw [if_neg hm]
    by_cases hb : r.isBlob = true
    · rw [if_pos hb]
      rw [if_pos htok]
      exact ⟨rfl, rfl, rfl, rfl, rfl⟩
    · rw [if_neg hb]
      rw [if_pos htok]
      exact ⟨rfl, rfl, rfl, rfl, rfl⟩

/-! ### Claim C1 -/

/-- C1: three load requests issued with tokens t1 < t2 < t3 whose source
resolutions complete out of order (t3, then t1, then t2, the only order
consistent with the issue order and t3 resolving first) result in exactly
the t3 source being assigned to the audio resource; both stale results are
discarded without assigning a source, as witnessed by the applied-token
log gaining only t3.  The freshness hypothesis rules out the
metadata-update early return for the honored request (it compares raw
sources, not tokens). -/
theorem C1_race_token_discard (song1 song2 song3 : Song) (t1 t2 t3 : Nat)
    (r1 r2 r3 : LoadResult) (c0 : ControllerState)
    (h12 : t1 < t2) (h23 : t2 < t3)
    (hfresh : c0.lastPlayedSource ≠ some r3.raw ∨ c0.playerSrc = none) :
    (loadResolve song2 t2 (some r2) (loadResolve song1 t1 (some r1)
        (loadResolve song3 t3 (some r3)
          (loadIssue t3 (loadIssue t2 (loadIssue t1 c0)))))).playerSrc
      = some r3.src ∧
    (loadResolve song2 t2 (some r2) (loadResolve song1 t1 (some r1)
        (loadResolve song3 t3 (some r3)
          (loadIssue t3 (loadIssue t2 (loadIssue t1 c0)))))).appliedTokens
      = c0.appliedTokens ++ [t3] := by
  set cI := loadIssue t3 (loadIssue t2 (loadIssue t1 c0)) with hcI
  have hIlast : cI.lastPlayedSource = c0.lastPlayedSource := rfl
  have hIsrc : cI.playerSrc = c0.playerSrc := rfl
  have hIreq : cI.playRequest = t3 := rfl
  have hItok : cI.appliedTokens = c0.appliedTokens := rfl
  have hmeta3 : ¬ (cI.lastPlayedSource = some r3.raw ∧ cI.playerSrc.isSome = true) := by
    rcases hfresh with hf | hf
    · intro hx
      exact hf (hIlast ▸ hx.1)
    · intro hx
      rw [hIsrc, hf] at hx
      simpa using hx.2
  have hA := loadResolve_applied song3 t3 r3 cI hmeta3 hIreq
  set cA := loadResolve song3 t3 (some r3) cI with hcA
  have hB := loadResolve_stale song1 t1 r1 cA (by rw [hA.2.2.1, hIreq]; omega)
  set cB := loadResolve song1 t1 (some r1) cA with hcB
  have hC := loadResolve_stale song2 t2 r2 cB
    (by rw [hB.2.2.1, hA.2.2.1, hIreq]; omega)
  constructor
  · rw [hC.1, hB.1, hA.1]
  · rw [hC.2.1, hB.2.1, hA.2.1, hItok]

/-- A freshly started controller: nothing loaded yet. -/
def ctrl0 : ControllerState :=
  { playRequest := 0, playerSrc := none, playerTime := 0,
    lastPlayedSource := none, activeObjectUrl := none, isPlaying := true,
    songProgress := [], permissionErrorSong := none, appliedTokens := [] }

/-- Witness for C1: the concrete out-of-order trace 1,2,3 / 3,1,2. -/
theorem C1_witness :
    (loadResolve songB 2 (some ⟨12, 22, false⟩)
        (loadResolve songA 1 (some ⟨11, 21, true⟩)
          (loadResolve songC 3 (some ⟨13, 23, true⟩)
            (loadIssue 3 (loadIssue 2 (loadIssue 1 ctrl0)))))).playerSrc
      = some 13 ∧
    (loadResolve songB 2 (some ⟨12, 22, false⟩)
        (loadResolve songA 1 (some ⟨11, 21, true⟩)
          (loadResolve songC 3 (some ⟨13, 23, true⟩)
            (loadIssue 3 (loadIssue 2 (loadIssue 1 ctrl0)))))).appliedTokens
      = [3] := by
  have h := C1_race_token_discard songA songB songC 1 2 3
    ⟨11, 21, true⟩ ⟨12, 22, false⟩ ⟨13, 23, true⟩ ctrl0
    (by decide) (by decide) (Or.inr rfl)
  exact ⟨h.1, by rw [h.2]; rfl⟩

/-! ### Claim C8 -/

/-- A track whose duration the catalog does not know (stored as 0). -/
def songZ : Song := ⟨4, "Z", 0⟩

/-- Controller state holding a stored progress entry of 100 seconds for the
duration-less track. -/
def ctrlZ : ControllerState :=
  { playRequest := 5, playerSrc := none, playerTime := 0,
    lastPlayedSource := none, activeObjectUrl := none, isPlaying := true,
    songProgress := [(4, 100)], permissionErrorSong := none,
    appliedTokens := [] }

/-- C8 counterexample: for a track with unknown (zero) duration the code
falls back to the constant 300 and resumes at the stored 100 seconds,
consuming the entry, even though 0 < 100 < duration - 10 is false (the
claimed interval is empty). -/
theorem C8_counterexample :
    (loadResolve songZ 5 (some ⟨10, 10, true⟩) ctrlZ).playerTime = 100 ∧
    lookupProgress (loadResolve songZ 5 (some ⟨10, 10, true⟩) ctrlZ).songProgress
      songZ.id = none ∧
    ¬ ((100 : Int) < songZ.duration - 10) := by
  decide

/-- C8 (amended): when an honored (token-matching, non-metadata-update)
resolution succeeds for the current track, a stored progress entry v for
that track is used as the resume position and consumed exactly when
0 < v < D - 10, where D is the track duration when it is nonzero and the
fallback 300 seconds otherwise; in every other case playback starts at 0
and the progress store is left unchanged. -/
theorem C8_resume_amended (song : Song) (t : Nat) (r : LoadResult)
    (c : ControllerState)
    (hmeta : ¬ (c.lastPlayedSource = some r.raw ∧ c.playerSrc.isSome = true))
    (htok : c.playRequest = t) :
    (∀ v, lookupProgress c.songProgress song.id = some v →
      ((0 < v ∧ v < (if song.duration ≠ 0 then song.duration else 300) - 10) →
          (loadResolve song t (some r) c).playerTime = v ∧
          lookupProgress (loadResolve song t (some r) c).songProgress song.id
            = none) ∧
      (¬ (0 < v ∧ v < (if song.duration ≠ 0 then song.duration else 300) - 10) →
          (loadResolve song t (some r) c).playerTime = 0 ∧
          (loadResolve song t (some r) c).songProgress = c.songProgress)) ∧
    (lookupProgress c.songProgress song.id = none →
      (loadResolve song t (some r) c).playerTime = 0) := by
  unfold loadResolve
  simp only [Option.map_some']
  rw [if_neg hmeta]
  by_cases hb : r.isBlob = true
  · rw [if_pos hb]
    rw [if_neg (not_not_intro htok)]
    constructor
    · intro v hv
      rw [hv]
      dsimp only
      constructor
      · intro hcond
        rw [if_pos ⟨by omega, hcond.1, hcond.2⟩]
        exact ⟨rfl, lookupProgress_consume c.songProgress song.id⟩
      · intro hcond
        rw [if_neg (fun hx => hcond ⟨hx.2.1, hx.2.2⟩)]
        exact ⟨rfl, rfl⟩
    · intro hv
      rw [hv]
  · rw [if_neg hb]
    rw [if_neg (not_not_intro htok)]
    constructor
    · intro v hv
      rw [hv]
      dsimp only
      constructor
      · intro hcond
        rw [if_pos ⟨by omega, hcond.1, hcond.2⟩]
        exact ⟨rfl, lookupProgress_consume c.songProgress song.id⟩
      · intro hcond
        rw [if_neg (fun hx => hcond ⟨hx.2.1, hx.2.2⟩)]
        exact ⟨rfl, rfl⟩
    · intro hv
      rw [hv]

/-- Controller state with a stored 50-second entry for track A (duration
200), inside the resume window. -/
def ctrlA : ControllerState :=
  { playRequest := 9, playerSrc := none, playerTime := 0,
    lastPlayedSource := none, activeObjectUrl := none, isPlaying := true,
    songProgress := [(1, 50)], permissionErrorSong := none,
    appliedTokens := [] }

/-- Witness for C8 (amended): the 50-second entry is used and consumed. -/
theorem C8_witness :
    (loadResolve songA 9 (some ⟨10, 10, true⟩) ctrlA).playerTime = 50 ∧
    lookupProgress (loadResolve songA 9 (some ⟨10, 10, true⟩) ctrlA).songProgress
      songA.id = none := by
  have h := C8_resume_amended songA 9 ⟨10, 10, true⟩ ctrlA
    (by decide) rfl
  exact (h.1 50 (by decide)).1 (by decide)

/-! ### Claim C4 -/

/-- Controller state while a previous track is loaded and playing. -/
def ctrlP : ControllerState :=
  { playRequest := 5, playerSrc := some 8, playerTime := 44,
    lastPlayedSource := some 99, activeObjectUrl := none, isPlaying := true,
    songProgress := [], permissionErrorSong := none, appliedTokens := [] }

/-- C4: evaluation at the failing input.  For a track whose file-system
handle permission is no longer granted, getSongFile throws the permission
error, getSourceUrl catches it and degrades it to a null source, and the
load effect merely pauses playback: the store's permissionErrorSong is
never assigned (the controller reads the setter but never calls it), so
the PermissionDenied state is never entered and the re-authorization modal
can never be shown, while playback does pause and the player keeps its
previous source (no automatic skip). -/
theorem C4_permission_bug_eval :
    getSongFile (FileSource.handle 7 false)
      = Except.error "Permission denied" ∧
    getSourceUrl (FileSource.handle 7 false) = none ∧
    (loadResolve songA 5 (getSourceUrl (FileSource.handle 7 false))
        ctrlP).isPlaying = false ∧
    (loadResolve songA 5 (getSourceUrl (FileSource.handle 7 false))
        ctrlP).permissionErrorSong = none ∧
    (loadResolve songA 5 (getSourceUrl (FileSource.handle 7 false))
        ctrlP).playerSrc = some 8 :=
  ⟨rfl, rfl, by decide, by decide, by decide⟩

end AsteroidPlayer
